import Mathlib

/-!
Verification of the manufacturing-floor tracking application
(attendance, production planning, material usage, dashboard aggregation).

The definitions below are a shallow embedding of the Python source:
`src/app.py`, `src/storage.py` and `src/api/index.py`.  Numeric values
(efficiencies, quantities, standard times) are modelled as rationals,
strings as Lean `String`, missing CSV files as an explicit constructor,
and the pandas row sets as lists of records in file order.
-/

namespace Tas

/-- One entry of the `employees` dict of `data.py`, as materialised by
`plan_production` into `present_employees`
(`{"id": .., "name": .., "efficiency": .., "trained_skills": ..}`). -/
structure Employee where
  id : String
  name : String
  efficiency : ℚ
  trained_skills : String
deriving DecidableEq, Repr

/-- Python `s.split(",")`: cut the character sequence at every comma,
keeping empty pieces. -/
def splitCommaAux : List Char → List Char → List (List Char)
  | [], cur => [cur.reverse]
  | c :: rest, cur =>
    if c = ',' then cur.reverse :: splitCommaAux rest []
    else splitCommaAux rest (c :: cur)

/-- The whitespace characters removed by Python `str.strip()`. -/
def pyIsSpace (c : Char) : Bool :=
  c = ' ' || c = '\t' || c = '\n' || c = '\r' || c = '\x0b' || c = '\x0c'

/-- Python `s.strip()`: drop whitespace from both ends. -/
def pyStrip (l : List Char) : List Char :=
  ((l.dropWhile pyIsSpace).reverse.dropWhile pyIsSpace).reverse

/-- `[s.strip() for s in emp_assign["trained_skills"].split(",")]` -/
def skillList (s : String) : List String :=
  (splitCommaAux s.data []).map (fun cs => String.mk (pyStrip cs))

/-- `task['work_area'] in skills` for an employee's comma-separated skills. -/
def hasSkill (area : String) (e : Employee) : Bool :=
  (skillList e.trained_skills).contains area

/-- The running best of the first selection loop of `plan_production`:
`emp_assign["efficiency"] > last_best_efficiency`, where
`last_best_efficiency` starts at `-inf` (so any efficiency beats an empty
accumulator) and afterwards holds the efficiency of the current best. -/
def beatsBest (acc : Option Employee) (e : Employee) : Bool :=
  match acc with
  | none => true
  | some b => decide (b.efficiency < e.efficiency)

/-- One iteration of the `best_operator` loop of `plan_production`. -/
def bestStep (area : String) (acc : Option Employee) (e : Employee) : Option Employee :=
  if hasSkill area e && beatsBest acc e then some e else acc

/-- The `best_operator` loop: scan the remaining pool in order, keeping the
first skill-matching employee of strictly highest efficiency. -/
def pickBest (area : String) (pool : List Employee) : Option Employee :=
  pool.foldl (bestStep area) none

/-- The running best of the support loop:
`emp_assign["efficiency"] < last_support_efficiency`, starting at `+inf`. -/
def beatsSupport (acc : Option Employee) (e : Employee) : Bool :=
  match acc with
  | none => true
  | some b => decide (e.efficiency < b.efficiency)

/-- One iteration of the `support_operator` loop of `plan_production`. -/
def supportStep (area : String) (acc : Option Employee) (e : Employee) : Option Employee :=
  if hasSkill area e && beatsSupport acc e then some e else acc

/-- The `support_operator` loop: scan the pool (after the primary has been
removed) in order, keeping the first skill-matching employee of strictly
lowest efficiency. -/
def pickSupport (area : String) (pool : List Employee) : Option Employee :=
  pool.foldl (supportStep area) none

/-- The body of `for task in total_tasks:` in `plan_production`: choose the
primary operator, remove it from the pool (`assignment_employees.remove`),
choose the support operator, remove it; return both operators and the
remaining pool. -/
def assignTask (pool : List Employee) (area : String) :
    Option Employee × Option Employee × List Employee :=
  let b := pickBest area pool
  let pool1 := match b with
    | some e => pool.erase e
    | none => pool
  let s := pickSupport area pool1
  let pool2 := match s with
    | some e => pool1.erase e
    | none => pool1
  (b, s, pool2)

/-- The whole assignment loop of `plan_production`, returning for each task
(already sorted) the chosen primary and support operators. -/
def planAssignments (pool : List Employee) : List String → List (Option Employee × Option Employee)
  | [] => []
  | area :: rest =>
    let r := assignTask pool area
    (r.1, r.2.1) :: planAssignments r.2.2 rest

theorem bestStep_eq_none {area : String} {acc : Option Employee} {e : Employee} :
    bestStep area acc e = none ↔ acc = none ∧ hasSkill area e = false := by
  cases acc with
  | none =>
    simp only [bestStep, beatsBest, Bool.and_true]
    cases h : hasSkill area e <;> simp [h]
  | some b =>
    simp only [bestStep]
    split <;> simp

theorem bestStep_some_cases {area : String} {acc : Option Employee} {e b : Employee}
    (h : bestStep area acc e = some b) :
    (b = e ∧ hasSkill area e = true) ∨ acc = some b := by
  unfold bestStep at h
  by_cases hc : (hasSkill area e && beatsBest acc e) = true
  · rw [if_pos hc] at h
    cases h
    exact Or.inl ⟨rfl, (Bool.and_eq_true_iff.mp hc).1⟩
  · rw [if_neg hc] at h
    exact Or.inr h

theorem bestFold_spec (area : String) (l : List Employee) : ∀ (acc : Option Employee),
    (l.foldl (bestStep area) acc = none ↔ acc = none ∧ ∀ e ∈ l, hasSkill area e = false)
    ∧ (∀ b, l.foldl (bestStep area) acc = some b →
        (((b ∈ l ∧ hasSkill area b = true) ∨ acc = some b)
        ∧ (∀ e ∈ l, hasSkill area e = true → e.efficiency ≤ b.efficiency)
        ∧ (∀ a, acc = some a → a.efficiency ≤ b.efficiency))) := by
  induction l with
  | nil =>
    intro acc
    constructor
    · simp
    · intro b hb
      simp only [List.foldl_nil] at hb
      refine ⟨Or.inr hb, by simp, ?_⟩
      intro a ha
      rw [hb] at ha
      cases ha
      exact le_refl _
  | cons e l ih =>
    intro acc
    simp only [List.foldl_cons]
    constructor
    · rw [(ih (bestStep area acc e)).1]
      constructor
      · rintro ⟨h1, h2⟩
        obtain ⟨hn, hs⟩ := bestStep_eq_none.mp h1
        refine ⟨hn, ?_⟩
        intro x hx
        rcases List.mem_cons.mp hx with hx | hx
        · rw [hx]; exact hs
        · exact h2 x hx
      · rintro ⟨hn, hall⟩
        refine ⟨bestStep_eq_none.mpr ⟨hn, hall e (List.mem_cons_self e l)⟩, ?_⟩
        intro x hx
        exact hall x (List.mem_cons_of_mem e hx)
    · intro b hb
      obtain ⟨ih1, ih2, ih3⟩ := (ih (bestStep area acc e)).2 b hb
      refine ⟨?_, ?_, ?_⟩
      · rcases ih1 with ⟨hmem, hsk⟩ | hacc
        · exact Or.inl ⟨List.mem_cons_of_mem e hmem, hsk⟩
        · rcases bestStep_some_cases hacc with ⟨hbe, hsk⟩ | hab
          · exact Or.inl ⟨hbe ▸ List.mem_cons_self e l, hbe ▸ hsk⟩
          · exact Or.inr hab
      · intro x hx hskx
        rcases List.mem_cons.mp hx with hx | hx
        · subst hx
          by_cases hc : (hasSkill area x && beatsBest acc x) = true
          · exact ih3 x (by simp [bestStep, hc])
          · have hbb : beatsBest acc x = false := by
              cases hbe : beatsBest acc x
              · rfl
              · exact absurd (by rw [hskx, hbe]; rfl) hc
            cases hacc : acc with
            | none => rw [hacc] at hbb; simp [beatsBest] at hbb
            | some a0 =>
              rw [hacc] at hbb
              have hxa0 : x.efficiency ≤ a0.efficiency := by
                simpa [beatsBest, not_lt] using hbb
              have ha0b : a0.efficiency ≤ b.efficiency := by
                apply ih3
                unfold bestStep
                rw [if_neg hc, hacc]
              exact le_trans hxa0 ha0b
        · exact ih2 x hx hskx
      · intro a ha
        by_cases hc : (hasSkill area e && beatsBest acc e) = true
        · have hbb : beatsBest acc e = true := (Bool.and_eq_true_iff.mp hc).2
          rw [ha] at hbb
          have hae : a.efficiency < e.efficiency := by simpa [beatsBest] using hbb
          have heb : e.efficiency ≤ b.efficiency := ih3 e (by simp [bestStep, hc])
          exact le_trans (le_of_lt hae) heb
        · exact ih3 a (by unfold bestStep; rw [if_neg hc, ha])

/-- The pool that the support loop of `plan_production` scans: the remaining
pool after `assignment_employees.remove(best_operator)` (unchanged when no
primary was found). -/
def poolAfterBest (pool : List Employee) (area : String) : List Employee :=
  match pickBest area pool with
  | some e => pool.erase e
  | none => pool

theorem assignTask_fst (pool : List Employee) (area : String) :
    (assignTask pool area).1 = pickBest area pool := rfl

theorem assignTask_support (pool : List Employee) (area : String) :
    (assignTask pool area).2.1 = pickSupport area (poolAfterBest pool area) := rfl

theorem supportStep_eq_none {area : String} {acc : Option Employee} {e : Employee} :
    supportStep area acc e = none ↔ acc = none ∧ hasSkill area e = false := by
  cases acc with
  | none =>
    simp only [supportStep, beatsSupport, Bool.and_true]
    cases h : hasSkill area e <;> simp [h]
  | some b =>
    simp only [supportStep]
    split <;> simp

theorem supportStep_some_cases {area : String} {acc : Option Employee} {e b : Employee}
    (h : supportStep area acc e = some b) :
    (b = e ∧ hasSkill area e = true) ∨ acc = some b := by
  unfold supportStep at h
  by_cases hc : (hasSkill area e && beatsSupport acc e) = true
  · rw [if_pos hc] at h
    cases h
    exact Or.inl ⟨rfl, (Bool.and_eq_true_iff.mp hc).1⟩
  · rw [if_neg hc] at h
    exact Or.inr h

theorem supportFold_spec (area : String) (l : List Employee) : ∀ (acc : Option Employee),
    (l.foldl (supportStep area) acc = none ↔ acc = none ∧ ∀ e ∈ l, hasSkill area e = false)
    ∧ (∀ b, l.foldl (supportStep area) acc = some b →
        (((b ∈ l ∧ hasSkill area b = true) ∨ acc = some b)
        ∧ (∀ e ∈ l, hasSkill area e = true → b.efficiency ≤ e.efficiency)
        ∧ (∀ a, acc = some a → b.efficiency ≤ a.efficiency))) := by
  induction l with
  | nil =>
    intro acc
    constructor
    · simp
    · intro b hb
      simp only [List.foldl_nil] at hb
      refine ⟨Or.inr hb, by simp, ?_⟩
      intro a ha
      rw [hb] at ha
      cases ha
      exact le_refl _
  | cons e l ih =>
    intro acc
    simp only [List.foldl_cons]
    constructor
    · rw [(ih (supportStep area acc e)).1]
      constructor
      · rintro ⟨h1, h2⟩
        obtain ⟨hn, hs⟩ := supportStep_eq_none.mp h1
        refine ⟨hn, ?_⟩
        intro x hx
        rcases List.mem_cons.mp hx with hx | hx
        · rw [hx]; exact hs
        · exact h2 x hx
      · rintro ⟨hn, hall⟩
        refine ⟨supportStep_eq_none.mpr ⟨hn, hall e (List.mem_cons_self e l)⟩, ?_⟩
        intro x hx
        exact hall x (List.mem_cons_of_mem e hx)
    · intro b hb
      obtain ⟨ih1, ih2, ih3⟩ := (ih (supportStep area acc e)).2 b hb
      refine ⟨?_, ?_, ?_⟩
      · rcases ih1 with ⟨hmem, hsk⟩ | hacc
        · exact Or.inl ⟨List.mem_cons_of_mem e hmem, hsk⟩
        · rcases supportStep_some_cases hacc with ⟨hbe, hsk⟩ | hab
          · exact Or.inl ⟨hbe ▸ List.mem_cons_self e l, hbe ▸ hsk⟩
          · exact Or.inr hab
      · intro x hx hskx
        rcases List.mem_cons.mp hx with hx | hx
        · subst hx
          by_cases hc : (hasSkill area x && beatsSupport acc x) = true
          · exact ih3 x (by simp [supportStep, hc])
          · have hbb : beatsSupport acc x = false := by
              cases hbe : beatsSupport acc x
              · rfl
              · exact absurd (by rw [hskx, hbe]; rfl) hc
            cases hacc : acc with
            | none => rw [hacc] at hbb; simp [beatsSupport] at hbb
            | some a0 =>
              rw [hacc] at hbb
              have ha0x : a0.efficiency ≤ x.efficiency := by
                simpa [beatsSupport, not_lt] using hbb
              have hba0 : b.efficiency ≤ a0.efficiency := by
                apply ih3
                unfold supportStep
                rw [if_neg hc, hacc]
              exact le_trans hba0 ha0x
        · exact ih2 x hx hskx
      · intro a ha
        by_cases hc : (hasSkill area e && beatsSupport acc e) = true
        · have hbb : beatsSupport acc e = true := (Bool.and_eq_true_iff.mp hc).2
          rw [ha] at hbb
          have hea : e.efficiency < a.efficiency := by simpa [beatsSupport] using hbb
          have hbe : b.efficiency ≤ e.efficiency := ih3 e (by simp [supportStep, hc])
          exact le_trans hbe (le_of_lt hea)
        · exact ih3 a (by unfold supportStep; rw [if_neg hc, ha])

/-- The pool that `plan_production` passes to the next task: the remaining
pool after the primary and support operators (when found) have been removed. -/
def poolAfterSupport (pool : List Employee) (area : String) : List Employee :=
  match pickSupport area (poolAfterBest pool area) with
  | some e => (poolAfterBest pool area).erase e
  | none => poolAfterBest pool area

theorem assignTask_pool (pool : List Employee) (area : String) :
    (assignTask pool area).2.2 = poolAfterSupport pool area := rfl

theorem pickBest_mem {area : String} {pool : List Employee} {e : Employee}
    (h : pickBest area pool = some e) : e ∈ pool := by
  obtain ⟨h1, _, _⟩ := (bestFold_spec area pool none).2 e h
  rcases h1 with ⟨hm, _⟩ | habs
  · exact hm
  · simp at habs

theorem pickSupport_mem {area : String} {pool : List Employee} {e : Employee}
    (h : pickSupport area pool = some e) : e ∈ pool := by
  obtain ⟨h1, _, _⟩ := (supportFold_spec area pool none).2 e h
  rcases h1 with ⟨hm, _⟩ | habs
  · exact hm
  · simp at habs

theorem poolAfterBest_subset (pool : List Employee) (area : String) :
    poolAfterBest pool area ⊆ pool := by
  unfold poolAfterBest
  cases pickBest area pool with
  | none => exact fun x hx => hx
  | some e => exact List.erase_subset e pool

theorem poolAfterSupport_subset (pool : List Employee) (area : String) :
    poolAfterSupport pool area ⊆ poolAfterBest pool area := by
  unfold poolAfterSupport
  cases pickSupport area (poolAfterBest pool area) with
  | none => exact fun x hx => hx
  | some e => exact List.erase_subset e _

theorem poolAfterBest_nodup {pool : List Employee} (area : String)
    (hnd : pool.Nodup) : (poolAfterBest pool area).Nodup := by
  unfold poolAfterBest
  cases pickBest area pool with
  | none => exact hnd
  | some e => exact hnd.erase e

theorem poolAfterSupport_nodup {pool : List Employee} (area : String)
    (hnd : pool.Nodup) : (poolAfterSupport pool area).Nodup := by
  unfold poolAfterSupport
  cases pickSupport area (poolAfterBest pool area) with
  | none => exact poolAfterBest_nodup area hnd
  | some e => exact (poolAfterBest_nodup area hnd).erase e

/-- Whether `plan_production` reports `w` as primary or support operator of a
task entry. -/
def isOp (p : Option Employee × Option Employee) (w : Employee) : Prop :=
  p.1 = some w ∨ p.2 = some w

instance (p : Option Employee × Option Employee) (w : Employee) :
    Decidable (isOp p w) := by
  unfold isOp
  infer_instance

theorem assignTask_ops_not_mem {pool : List Employee} {area : String}
    (hnd : pool.Nodup) {w : Employee}
    (h : isOp ((assignTask pool area).1, (assignTask pool area).2.1) w) :
    w ∉ poolAfterSupport pool area := by
  rcases h with h | h
  · rw [assignTask_fst] at h
    have hnb : w ∉ poolAfterBest pool area := by
      unfold poolAfterBest
      rw [h]
      exact hnd.not_mem_erase
    exact fun hmem => hnb (poolAfterSupport_subset pool area hmem)
  · have h' : pickSupport area (poolAfterBest pool area) = some w := h
    unfold poolAfterSupport
    rw [h']
    exact (poolAfterBest_nodup area hnd).not_mem_erase

theorem planAssignments_ops_mem (areas : List String) :
    ∀ (pool : List Employee) (j : ℕ) (hj : j < (planAssignments pool areas).length)
      (w : Employee), isOp ((planAssignments pool areas).get ⟨j, hj⟩) w → w ∈ pool := by
  induction areas with
  | nil => intro pool j hj; simp [planAssignments] at hj
  | cons area rest ih =>
    intro pool j hj w hop
    cases j with
    | zero =>
      rcases hop with h | h
      · exact pickBest_mem (h : pickBest area pool = some w)
      · have h' : pickSupport area (poolAfterBest pool area) = some w := h
        exact poolAfterBest_subset pool area (pickSupport_mem h')
    | succ j' =>
      have hj' : j' < (planAssignments (poolAfterSupport pool area) rest).length := by
        simpa [planAssignments] using hj
      have := ih (poolAfterSupport pool area) j' hj' w (by exact hop)
      exact poolAfterBest_subset pool area (poolAfterSupport_subset pool area this)

/-- C3: within a single `plan_production` call no worker is assigned to more
than one task: once a worker is reported as primary or support operator of
the task at position `i`, it is not reported as primary or support operator
of any later task `j > i` (the worker pool starts without duplicates, as
`present_employees` is built from the id-keyed `employees` dict). -/
theorem C3_no_double_assignment (areas : List String) :
    ∀ (pool : List Employee), pool.Nodup →
      ∀ (i j : ℕ) (hi : i < (planAssignments pool areas).length)
        (hj : j < (planAssignments pool areas).length), i < j →
        ∀ w, isOp ((planAssignments pool areas).get ⟨i, hi⟩) w →
          ¬ isOp ((planAssignments pool areas).get ⟨j, hj⟩) w := by
  induction areas with
  | nil => intro pool _ i j hi; simp [planAssignments] at hi
  | cons area rest ih =>
    intro pool hnd i j hi hj hij w hop
    cases j with
    | zero => omega
    | succ j' =>
      have hj' : j' < (planAssignments (poolAfterSupport pool area) rest).length := by
        simpa [planAssignments] using hj
      cases i with
      | zero =>
        intro hop'
        have hw : w ∈ poolAfterSupport pool area :=
          planAssignments_ops_mem rest (poolAfterSupport pool area) j' hj' w hop'
        exact assignTask_ops_not_mem hnd hop hw
      | succ i' =>
        have hi' : i' < (planAssignments (poolAfterSupport pool area) rest).length := by
          simpa [planAssignments] using hi
        exact ih (poolAfterSupport pool area) (poolAfterSupport_nodup area hnd)
          i' j' hi' hj' (by omega) w hop

/-- A task selected in a `plan_production` request
(`{"part_id": .., "quantity": int(..), "work_area": ..}`). -/
structure PartItem where
  part_id : String
  quantity : ℤ
  work_area : String
deriving DecidableEq, Repr

/-- One entry of `total_tasks` in `plan_production`. -/
structure TaskA where
  part_name : String
  part_id : String
  quantity : ℤ
  work_area : String
  total_minutes : ℚ
  time_per_unit : ℚ
deriving DecidableEq, Repr

/-- One row of `wp_data.csv`: a part id keyed by the first column and the
per-work-area standard times of the remaining columns. -/
structure WpRow where
  part_id : String
  times : String → ℚ

/-- `wp_data.loc[wp_data[header[0]] == part_id, area].values`: the standard
times of every `wp_data` row whose first column equals the part id. -/
def stdTimes (wp : List WpRow) (pid area : String) : List ℚ :=
  (wp.filter (fun r => r.part_id == pid)).map (fun r => r.times area)

/-- The `total_tasks.append({..})` body of `plan_production`:
`total_minutes = time_per_unit_min[0] * qty if len(time_per_unit_min) > 0
else 0`. -/
def buildTask (wp : List WpRow) (partName : String → String) (item : PartItem) : TaskA :=
  { part_name := partName item.part_id
    part_id := item.part_id
    quantity := item.quantity
    work_area := item.work_area
    total_minutes :=
      match stdTimes wp item.part_id item.work_area with
      | [] => 0
      | t :: _ => t * (item.quantity : ℚ)
    time_per_unit :=
      match stdTimes wp item.part_id item.work_area with
      | [] => 0
      | t :: _ => t }

/-- The comparison implied by
`total_tasks.sort(key=lambda x: x["total_minutes"], reverse=True)`. -/
def taskLe (a b : TaskA) : Bool := decide (b.total_minutes ≤ a.total_minutes)

/-- The stable descending sort of `total_tasks` by `total_minutes`. -/
def sortTasks (ts : List TaskA) : List TaskA := ts.mergeSort taskLe

/-- The operator assignments of a whole `plan_production` call: build a task
per selected part, sort descending by estimated duration, then run the
greedy per-task assignment over the present-employee pool. -/
def planProduction (pool : List Employee) (wp : List WpRow)
    (partName : String → String) (items : List PartItem) :
    List (Option Employee × Option Employee) :=
  planAssignments pool ((sortTasks (items.map (buildTask wp partName))).map TaskA.work_area)

/-- C2: `plan_production` estimates a task's duration as the part's per-unit
standard time for the requested work area times the requested quantity
(0 when the part has no standard-time row), and processes tasks in
descending order of that estimate: at any earlier position of the sorted
task list the `total_minutes` is at least that of any later position. -/
theorem C2_tasks_sorted_by_duration (wp : List WpRow) (partName : String → String)
    (items : List PartItem) :
    (∀ item : PartItem,
        (stdTimes wp item.part_id item.work_area = [] →
          (buildTask wp partName item).total_minutes = 0)
        ∧ ∀ t rest, stdTimes wp item.part_id item.work_area = t :: rest →
            (buildTask wp partName item).total_minutes = t * (item.quantity : ℚ))
    ∧ (∀ (i j : Fin (sortTasks (items.map (buildTask wp partName))).length),
        i < j →
          ((sortTasks (items.map (buildTask wp partName))).get j).total_minutes ≤
            ((sortTasks (items.map (buildTask wp partName))).get i).total_minutes) := by
  constructor
  · intro item
    constructor
    · intro h
      simp [buildTask, h]
    · intro t rest h
      simp [buildTask, h]
  · have hp : (sortTasks (items.map (buildTask wp partName))).Pairwise
        (fun a b => taskLe a b = true) := by
      apply List.sorted_mergeSort
      · intro a b c hab hbc
        simp only [taskLe, decide_eq_true_eq] at hab hbc ⊢
        exact le_trans hbc hab
      · intro a b
        simp only [taskLe, Bool.or_eq_true, decide_eq_true_eq]
        exact le_total _ _
    rw [List.pairwise_iff_get] at hp
    intro i j hij
    have h := hp i j hij
    simpa [taskLe] using h

/-- Example data used to instantiate the theorems on concrete inputs. -/
def empA : Employee := ⟨"E1", "Asha", 90, "CCA, PAA"⟩

def empB : Employee := ⟨"E2", "Bala", 50, "CCA"⟩

def empC : Employee := ⟨"E3", "Chitra", 70, "Prefit"⟩

def examplePool : List Employee := [empA, empB, empC]

/-- C1: in `plan_production`, for every task considered in order, the primary
operator is a skill-matching worker of maximal efficiency among the workers
remaining in the pool (and `None` exactly when no remaining worker's trained
skills contain the task's work area), and the support operator is a
skill-matching worker of minimal efficiency among the workers remaining after
the primary has been removed (and `None` exactly when no such worker
remains). -/
theorem C1_operator_choice (pool : List Employee) (area : String) :
    ((∀ e, (assignTask pool area).1 = some e →
        e ∈ pool ∧ hasSkill area e = true ∧
          ∀ w ∈ pool, hasSkill area w = true → w.efficiency ≤ e.efficiency)
      ∧ ((assignTask pool area).1 = none ↔ ∀ w ∈ pool, hasSkill area w = false))
    ∧ ((∀ e, (assignTask pool area).2.1 = some e →
        e ∈ poolAfterBest pool area ∧ hasSkill area e = true ∧
          ∀ w ∈ poolAfterBest pool area, hasSkill area w = true →
            e.efficiency ≤ w.efficiency)
      ∧ ((assignTask pool area).2.1 = none ↔
          ∀ w ∈ poolAfterBest pool area, hasSkill area w = false)) := by
  have hb := bestFold_spec area pool
  have hs := supportFold_spec area (poolAfterBest pool area)
  rw [assignTask_fst, assignTask_support]
  refine ⟨⟨?_, ?_⟩, ?_, ?_⟩
  · intro e he
    obtain ⟨h1, h2, _⟩ := (hb none).2 e he
    rcases h1 with ⟨hm, hsk⟩ | habs
    · exact ⟨hm, hsk, h2⟩
    · simp at habs
  · unfold pickBest
    rw [(hb none).1]
    simp
  · intro e he
    obtain ⟨h1, h2, _⟩ := (hs none).2 e he
    rcases h1 with ⟨hm, hsk⟩ | habs
    · exact ⟨hm, hsk, h2⟩
    · simp at habs
  · unfold pickSupport
    rw [(hs none).1]
    simp

def exampleWp : List WpRow := [⟨"P1", fun _ => 5⟩, ⟨"P2", fun _ => 3⟩]

def examplePartName : String → String := fun pid => pid

def exampleItems : List PartItem := [⟨"P1", 2, "CCA"⟩, ⟨"P2", 10, "CCA"⟩]

/-- C2 instantiated: part P1 (5 min/unit, quantity 2) gives 10 total minutes,
and after sorting the two example tasks the second task's `total_minutes`
(10) is at most the first one's (30). -/
theorem C2_tasks_sorted_by_duration_witness :
    (buildTask exampleWp examplePartName ⟨"P1", 2, "CCA"⟩).total_minutes =
      5 * (((2 : ℤ) : ℚ))
    ∧ ((sortTasks (exampleItems.map (buildTask exampleWp examplePartName))).get
          ⟨1, by simp [sortTasks, exampleItems]⟩).total_minutes ≤
        ((sortTasks (exampleItems.map (buildTask exampleWp examplePartName))).get
          ⟨0, by simp [sortTasks, exampleItems]⟩).total_minutes :=
  ⟨((C2_tasks_sorted_by_duration exampleWp examplePartName exampleItems).1
      ⟨"P1", 2, "CCA"⟩).2 5 [] (by decide),
   (C2_tasks_sorted_by_duration exampleWp examplePartName exampleItems).2
      ⟨0, by simp [sortTasks, exampleItems]⟩ ⟨1, by simp [sortTasks, exampleItems]⟩
      (by simp)⟩

/-- C3 instantiated: Asha, assigned (as primary) to the first of two CCA
tasks, is not an operator of the second. -/
theorem C3_no_double_assignment_witness :
    ¬ isOp ((planAssignments examplePool ["CCA", "CCA"]).get ⟨1, by decide⟩) empA :=
  C3_no_double_assignment ["CCA", "CCA"] examplePool (by decide) 0 1 (by decide)
    (by decide) (by decide) empA (by decide)

/-- C1 instantiated: on the example pool (Asha eff 90 skilled CCA+PAA,
Bala eff 50 skilled CCA, Chitra eff 70 skilled Prefit) and area CCA, the
primary is Asha (maximal) and the support Bala (minimal among the rest). -/
theorem C1_operator_choice_witness :
    (empA ∈ examplePool ∧ hasSkill "CCA" empA = true ∧
      ∀ w ∈ examplePool, hasSkill "CCA" w = true → w.efficiency ≤ empA.efficiency)
    ∧ (empB ∈ poolAfterBest examplePool "CCA" ∧ hasSkill "CCA" empB = true ∧
      ∀ w ∈ poolAfterBest examplePool "CCA", hasSkill "CCA" w = true →
        empB.efficiency ≤ w.efficiency) :=
  ⟨(C1_operator_choice examplePool "CCA").1.1 empA (by decide),
   (C1_operator_choice examplePool "CCA").2.1 empB (by decide)⟩

/-- One `operators` entry of a `plan_production` response
(`{"best_operator": .., "support_operator": ..}`). -/
structure OpsEntry where
  best_operator : String
  support_operator : String
deriving DecidableEq, Repr

/-- The `task_assignments.append` of `src/app.py`: inside `if best_operator:`
it emits `support_operator["name"]` with no `None` guard, so when no support
operator was found the subscript of `None` raises `TypeError`; the raised
error is modelled as `none`. -/
def taskOpsApp (b s : Option Employee) : Option (List OpsEntry) :=
  match b with
  | none => some []
  | some bo =>
    match s with
    | none => none
    | some so => some [⟨bo.name, so.name⟩]

/-- The `task_assignments.append` of `src/api/index.py`:
`support_operator["name"] if support_operator else "None"`. -/
def taskOpsIndex (b s : Option Employee) : List OpsEntry :=
  match b with
  | none => []
  | some bo =>
    [⟨bo.name, match s with | none => "None" | some so => so.name⟩]

/-- C4 evaluated at the failing input: with exactly one CCA-skilled worker
present, the task gets a primary operator and no support operator, and the
response-entry construction of `src/app.py` fails (it subscripts `None`),
while the guarded construction of `src/api/index.py` succeeds and reports
support operator "None". -/
theorem C4_app_support_entry_crash :
    (assignTask [empB] "CCA").1 = some empB
    ∧ (assignTask [empB] "CCA").2.1 = none
    ∧ taskOpsApp (assignTask [empB] "CCA").1 (assignTask [empB] "CCA").2.1 = none
    ∧ taskOpsIndex (assignTask [empB] "CCA").1 (assignTask [empB] "CCA").2.1 =
        [⟨"Bala", "None"⟩] := by decide

/-- One row of `attendance_log.csv`. -/
structure AttRow where
  date : String
  shift : String
  emp_id : String
  present : Bool
deriving DecidableEq, Repr

/-- `mark_attendance` (`src/app.py`, `src/api/index.py`) and `save_attendance`
(`src/storage.py`, CSV path): drop every stored row whose date and shift
equal the request's, then append the submitted rows. -/
def saveAttendance (store : List AttRow) (date shift : String)
    (entries : List (String × Bool)) : List AttRow :=
  (store.filter fun r => !(r.date == date && r.shift == shift)) ++
    entries.map fun p => ⟨date, shift, p.1, p.2⟩

/-- C5: saving attendance is last-write-wins on the (date, shift) key: after
the call the stored rows for that key are exactly the submitted rows, and
the stored rows for every other (date, shift) key are unchanged. -/
theorem C5_attendance_last_write_wins (store : List AttRow) (date shift : String)
    (entries : List (String × Bool)) :
    ((saveAttendance store date shift entries).filter
        (fun r => r.date == date && r.shift == shift) =
      entries.map fun p => ⟨date, shift, p.1, p.2⟩)
    ∧ ∀ d s, ¬(d = date ∧ s = shift) →
        (saveAttendance store date shift entries).filter
            (fun r => r.date == d && r.shift == s) =
          store.filter (fun r => r.date == d && r.shift == s) := by
  constructor
  · rw [saveAttendance, List.filter_append]
    have h1 : (store.filter fun r => !(r.date == date && r.shift == shift)).filter
        (fun r => r.date == date && r.shift == shift) = [] := by
      rw [List.filter_filter]
      apply List.filter_eq_nil_iff.mpr
      intro a _
      cases h : (a.date == date && a.shift == shift) <;> simp [h]
    have h2 : ((entries.map fun p => (⟨date, shift, p.1, p.2⟩ : AttRow)).filter
        (fun r => r.date == date && r.shift == shift)) =
        entries.map fun p => ⟨date, shift, p.1, p.2⟩ := by
      apply List.filter_eq_self.mpr
      intro a ha
      obtain ⟨p, _, rfl⟩ := List.mem_map.mp ha
      simp
    rw [h1, h2, List.nil_append]
  · intro d s hds
    rw [saveAttendance, List.filter_append]
    have h2 : ((entries.map fun p => (⟨date, shift, p.1, p.2⟩ : AttRow)).filter
        (fun r => r.date == d && r.shift == s)) = [] := by
      apply List.filter_eq_nil_iff.mpr
      intro a ha
      obtain ⟨p, _, rfl⟩ := List.mem_map.mp ha
      simp only [Bool.and_eq_true_iff, beq_iff_eq, not_and]
      intro hd hs
      exact hds ⟨hd.symm, hs.symm⟩
    have h1 : (store.filter fun r => !(r.date == date && r.shift == shift)).filter
        (fun r => r.date == d && r.shift == s) =
        store.filter (fun r => r.date == d && r.shift == s) := by
      rw [List.filter_filter]
      apply List.filter_congr
      intro a _
      cases hk : (a.date == d && a.shift == s)
      · simp [hk]
      · simp only [hk, Bool.true_and]
        obtain ⟨had, has⟩ := Bool.and_eq_true_iff.mp hk
        rw [beq_iff_eq] at had has
        have : (a.date == date && a.shift == shift) = false := by
          by_cases hdd : d = date
          · have hss : ¬ s = shift := fun hs => hds ⟨hdd, hs⟩
            apply Bool.and_eq_false_iff.mpr
            right
            rw [beq_eq_false_iff_ne]
            rw [has, ← hdd] at *
            exact fun hcontra => hss (by rw [← hcontra])
          · apply Bool.and_eq_false_iff.mpr
            left
            rw [beq_eq_false_iff_ne, had]
            exact fun hcontra => hdd hcontra
        rw [this]
        rfl
    rw [h1, h2, List.append_nil]

def exampleAttStore : List AttRow :=
  [⟨"2026-01-01", "Day", "E1", true⟩, ⟨"2026-01-01", "Night", "E2", true⟩]

/-- C5 instantiated: resubmitting attendance for (2026-01-01, Day) replaces
exactly the rows of that key; the Night rows of the same date are
untouched. -/
theorem C5_attendance_last_write_wins_witness :
    ((saveAttendance exampleAttStore "2026-01-01" "Day" [("E1", false)]).filter
        (fun r => r.date == "2026-01-01" && r.shift == "Day") =
      [⟨"2026-01-01", "Day", "E1", false⟩])
    ∧ (saveAttendance exampleAttStore "2026-01-01" "Day" [("E1", false)]).filter
          (fun r => r.date == "2026-01-01" && r.shift == "Night") =
        exampleAttStore.filter
          (fun r => r.date == "2026-01-01" && r.shift == "Night") := by
  have h := C5_attendance_last_write_wins exampleAttStore "2026-01-01" "Day"
    [("E1", false)]
  exact ⟨by rw [h.1]; rfl, h.2 "2026-01-01" "Night" (by decide)⟩

/-- One row of `production_log.csv`. -/
structure ProdRow where
  date : String
  shift : String
  part_id : String
  work_area : String
  plan_qty : ℚ
  actual_qty : ℚ
  efficiency : ℚ
deriving DecidableEq, Repr

/-- One row of `material_log.csv`. -/
structure MatRow where
  date : String
  program : String
  part_id : String
  work_area : String
  qty : ℚ
  req : ℚ
  actual : ℚ
  efficiency : ℚ
deriving DecidableEq, Repr

/-- A CSV-backed store: either the backing file does not exist, or it holds a
list of rows (a header-only file is `file []`). -/
inductive CsvFile (α : Type) where
  | missing
  | file (rows : List α)

/-- `safe_read_csv` of `src/app.py`: a missing or empty file yields an empty
DataFrame instead of raising. -/
def safe_read_csv {α : Type} : CsvFile α → List α
  | .missing => []
  | .file rows => rows

/-- `get_attendance` of `src/storage.py` (CSV branch): `{}` when the file is
missing, else the `{emp_id: present}` pairs of the rows for (date, shift). -/
def storageGetAttendance (f : CsvFile AttRow) (date shift : String) :
    List (String × Bool) :=
  match f with
  | .missing => []
  | .file rows =>
    (rows.filter fun r => r.date == date && r.shift == shift).map
      fun r => (r.emp_id, r.present)

/-- `get_production` of `src/storage.py` (CSV branch): `[]` when the file is
missing, else the rows for the date (and shift when given). -/
def get_production (f : CsvFile ProdRow) (date : String) (shift : Option String) :
    List ProdRow :=
  match f with
  | .missing => []
  | .file rows =>
    rows.filter fun r =>
      r.date == date && (match shift with | none => true | some s => r.shift == s)

/-- `get_materials` of `src/storage.py` (CSV branch): `[]` when the file is
missing, else the rows for the date. -/
def get_materials (f : CsvFile MatRow) (date : String) : List MatRow :=
  match f with
  | .missing => []
  | .file rows => rows.filter fun r => r.date == date

/-- The `get_attendance` endpoint of `src/api/index.py`: `jsonify({})` when
the attendance file does not exist. -/
def apiGetAttendance (f : CsvFile AttRow) (date shift : String) :
    List (String × Bool) :=
  match f with
  | .missing => []
  | .file rows =>
    (rows.filter fun r => r.date == date && r.shift == shift).map
      fun r => (r.emp_id, r.present)

/-- The `get_attendance` endpoint of `src/app.py`: reads via `safe_read_csv`
(so a missing file gives an empty frame and hence `{}`). -/
def appGetAttendance (f : CsvFile AttRow) (date shift : String) :
    List (String × Bool) :=
  ((safe_read_csv f).filter fun r => r.date == date && r.shift == shift).map
    fun r => (r.emp_id, r.present)

/-- C6: every read operation returns an empty result instead of failing when
the backing file does not exist: `safe_read_csv` an empty frame,
`get_attendance` (all three variants) an empty mapping, `get_production`
and `get_materials` an empty list. -/
theorem C6_missing_file_reads_empty (date shift : String) :
    (∀ (α : Type), safe_read_csv (CsvFile.missing : CsvFile α) = [])
    ∧ storageGetAttendance .missing date shift = []
    ∧ appGetAttendance .missing date shift = []
    ∧ apiGetAttendance .missing date shift = []
    ∧ (∀ s : Option String, get_production .missing date s = [])
    ∧ get_materials .missing date = [] :=
  ⟨fun _ => rfl, rfl, rfl, rfl, fun _ => rfl, rfl⟩

/-- Python `.lower()` (pandas `.str.lower()`): per-character lowercasing. -/
def pyLower (s : String) : String := ⟨s.data.map Char.toLower⟩

/-- Python `.replace('_', ' ')` with a single-character pattern: replace
every underscore by a space. -/
def underscoreToSpace (s : String) : String :=
  ⟨s.data.map fun c => if c = '_' then ' ' else c⟩

/-- `work_area.str.lower().str.replace('_', ' ')` (row side). -/
def rowAreaKey (s : String) : String := underscoreToSpace (pyLower s)

/-- `area.replace('_', ' ').lower()` (`area_clean`, query side). -/
def queryAreaKey (s : String) : String := pyLower (underscoreToSpace s)

/-- The date/shift pre-filter of `get_dashboard_data` on the production log
(`prod_df = prod_df[prod_df['date'] == date]`, then by shift if given). -/
def prodFiltered (prod : List ProdRow) (date : String) (shift : Option String) :
    List ProdRow :=
  match shift with
  | none => prod.filter fun r => r.date == date
  | some s => (prod.filter fun r => r.date == date).filter fun r => r.shift == s

/-- `all_effs = prod_effs + mat_effs` of `get_dashboard_data`: the
efficiencies of the pre-filtered production and material rows whose
normalised `work_area` equals `area_clean`. -/
def dashboardAllEffs (prod : List ProdRow) (mat : List MatRow)
    (date : String) (shift : Option String) (area : String) : List ℚ :=
  (((prodFiltered prod date shift).filter
      fun r => rowAreaKey r.work_area == queryAreaKey area).map ProdRow.efficiency)
    ++ (((mat.filter fun r => r.date == date).filter
      fun r => rowAreaKey r.work_area == queryAreaKey area).map MatRow.efficiency)

/-- The per-area value of `get_dashboard_data`:
`sum(all_effs) / len(all_effs) if all_effs else 0`. -/
def dashboardAreaValue (prod : List ProdRow) (mat : List MatRow)
    (date : String) (shift : Option String) (area : String) : ℚ :=
  if (dashboardAllEffs prod mat date shift area).length = 0 then 0
  else (dashboardAllEffs prod mat date shift area).sum /
    (dashboardAllEffs prod mat date shift area).length

/-- Arithmetic mean of a list of rationals, 0 for the empty list. -/
def meanQ (l : List ℚ) : ℚ := if l = [] then 0 else l.sum / l.length

/-- A production row counted by `get_dashboard_data` for a given query:
date matches, shift matches when requested, and the work area matches up to
case and underscore/space. -/
def prodRowMatches (date : String) (shift : Option String) (area : String)
    (r : ProdRow) : Bool :=
  r.date == date && (match shift with | none => true | some s => r.shift == s)
    && (rowAreaKey r.work_area == queryAreaKey area)

/-- A material row counted by `get_dashboard_data` for a given query. -/
def matRowMatches (date : String) (area : String) (r : MatRow) : Bool :=
  r.date == date && (rowAreaKey r.work_area == queryAreaKey area)

/-- C7: for every work area, `get_dashboard_data` reports the arithmetic mean
of the efficiencies of the production rows matching the requested date (and
shift, if given) and the material rows matching the requested date whose
work area matches the area case-insensitively with `_` and ` ` identified —
and 0 when there are no such rows. -/
theorem C7_dashboard_area_mean (prod : List ProdRow) (mat : List MatRow)
    (date : String) (shift : Option String) (area : String) :
    dashboardAreaValue prod mat date shift area =
      meanQ (((prod.filter (prodRowMatches date shift area)).map ProdRow.efficiency)
        ++ ((mat.filter (matRowMatches date area)).map MatRow.efficiency)) := by
  have hmat : (mat.filter fun r => r.date == date).filter
      (fun r => rowAreaKey r.work_area == queryAreaKey area) =
      mat.filter (matRowMatches date area) := by
    rw [List.filter_filter]
    apply List.filter_congr
    intro r _
    unfold matRowMatches
    cases r.date == date <;> cases rowAreaKey r.work_area == queryAreaKey area <;> rfl
  have hprod : (prodFiltered prod date shift).filter
        (fun r => rowAreaKey r.work_area == queryAreaKey area) =
      prod.filter (prodRowMatches date shift area) := by
    cases shift with
    | none =>
      unfold prodFiltered
      rw [List.filter_filter]
      apply List.filter_congr
      intro r _
      unfold prodRowMatches
      cases r.date == date <;> cases rowAreaKey r.work_area == queryAreaKey area <;> rfl
    | some s =>
      unfold prodFiltered
      rw [List.filter_filter, List.filter_filter]
      apply List.filter_congr
      intro r _
      unfold prodRowMatches
      cases hd : r.date == date <;> cases hs : r.shift == s <;>
        cases ha : rowAreaKey r.work_area == queryAreaKey area <;>
        simp [hd, hs, ha]
  have hall : dashboardAllEffs prod mat date shift area =
      ((prod.filter (prodRowMatches date shift area)).map ProdRow.efficiency)
        ++ ((mat.filter (matRowMatches date area)).map MatRow.efficiency) := by
    unfold dashboardAllEffs
    rw [hmat, hprod]
  unfold dashboardAreaValue
  rw [hall]
  set L := ((prod.filter (prodRowMatches date shift area)).map ProdRow.efficiency)
    ++ ((mat.filter (matRowMatches date area)).map MatRow.efficiency) with hL
  unfold meanQ
  by_cases h : L = []
  · simp [h]
  · rw [if_neg (by simpa [List.length_eq_zero] using h), if_neg h]

/-- The `log_entries.append({..})` of the assignment loop of
`plan_production`.  In the Python source `part_id`, `area` and `qty` are the
loop variables of the earlier task-building loop over `selected_parts`, so
during the assignment loop they still hold the values of the LAST selected
part; one row per (sorted) task is appended, all carrying that part's
values, with `actual_qty` and `efficiency` 0.  An empty selection appends
nothing (neither loop runs). -/
def planLogEntries (wp : List WpRow) (partName : String → String)
    (date shift : String) (items : List PartItem) : List ProdRow :=
  match items.getLast? with
  | none => []
  | some last =>
    (sortTasks (items.map (buildTask wp partName))).map fun _ =>
      ⟨date, shift, last.part_id, last.work_area, (last.quantity : ℚ), 0, 0⟩

/-- C8: a `plan_production` request with a non-empty selection of n parts
appends exactly n rows to the production log, and every appended row carries
the `part_id`, `work_area` and `plan_qty` of the LAST element of the
request's parts list (the leaked loop variables), with `actual_qty` 0 and
`efficiency` 0. -/
theorem C8_log_rows_use_last_part (wp : List WpRow) (partName : String → String)
    (date shift : String) (items : List PartItem) (h : items ≠ []) :
    (planLogEntries wp partName date shift items).length = items.length
    ∧ ∀ r ∈ planLogEntries wp partName date shift items,
        r.part_id = (items.getLast h).part_id
        ∧ r.work_area = (items.getLast h).work_area
        ∧ r.plan_qty = ((items.getLast h).quantity : ℚ)
        ∧ r.actual_qty = 0 ∧ r.efficiency = 0 := by
  have hl : items.getLast? = some (items.getLast h) := List.getLast?_eq_getLast items h
  constructor
  · unfold planLogEntries
    rw [hl]
    simp [sortTasks]
  · intro r hr
    unfold planLogEntries at hr
    rw [hl] at hr
    obtain ⟨t, _, rfl⟩ := List.mem_map.mp hr
    exact ⟨rfl, rfl, rfl, rfl, rfl⟩

/-- C8 instantiated: planning the two example parts appends two rows, each
carrying part P2 (the last selected part). -/
theorem C8_log_rows_use_last_part_witness :
    (planLogEntries exampleWp examplePartName "2026-01-01" "Day" exampleItems).length = 2
    ∧ ∀ r ∈ planLogEntries exampleWp examplePartName "2026-01-01" "Day" exampleItems,
        r.part_id = "P2" := by
  have h := C8_log_rows_use_last_part exampleWp examplePartName "2026-01-01" "Day"
    exampleItems (by decide)
  refine ⟨by rw [h.1]; rfl, ?_⟩
  intro r hr
  rw [(h.2 r hr).1]
  rfl

/-- The row mask of `update_production_actual`:
`(df['date'] == date) & (df['shift'] == shift) & (df['part_id'] == part_id)
& (df['work_area'] == area)`. -/
def prodKeyMask (date shift part_id area : String) (r : ProdRow) : Bool :=
  r.date == date && r.shift == shift && r.part_id == part_id && r.work_area == area

/-- `efficiency = (actual / plan * 100) if plan > 0 else 0`. -/
def updEfficiency (actual plan : ℚ) : ℚ :=
  if 0 < plan then actual / plan * 100 else 0

/-- `update_production_actual` (`src/app.py`, `src/api/index.py`, and the CSV
branch of `src/storage.py`): when some row matches the mask, set every
matching row's `actual_qty` and `efficiency` and report "updated"; otherwise
report "not found" without touching the store. -/
def update_production_actual (store : List ProdRow)
    (date shift part_id area : String) (actual plan : ℚ) : String × List ProdRow :=
  if store.any (prodKeyMask date shift part_id area) then
    ("updated", store.map fun r =>
      if prodKeyMask date shift part_id area r then
        { r with actual_qty := actual, efficiency := updEfficiency actual plan }
      else r)
  else ("not found", store)

/-- A production row matching an update request's key. -/
def prodKeyMatches (date shift part_id area : String) (r : ProdRow) : Prop :=
  r.date = date ∧ r.shift = shift ∧ r.part_id = part_id ∧ r.work_area = area

instance (date shift part_id area : String) (r : ProdRow) :
    Decidable (prodKeyMatches date shift part_id area r) := by
  unfold prodKeyMatches
  infer_instance

theorem prodKeyMask_iff (date shift part_id area : String) (r : ProdRow) :
    prodKeyMask date shift part_id area r = true ↔
      prodKeyMatches date shift part_id area r := by
  unfold prodKeyMask prodKeyMatches
  simp [and_assoc]

/-- C9: `update_production_actual` is atomic on failure: when no stored row
matches the request's (date, shift, part_id, work_area) it returns
"not found" and leaves the store completely unchanged; when at least one row
matches it reports "updated", every matching row gets `actual_qty := actual`
and `efficiency := actual/plan*100` (0 when plan is not positive), and every
other row is unchanged. -/
theorem C9_update_actual_atomic (store : List ProdRow)
    (date shift part_id area : String) (actual plan : ℚ) :
    ((∀ r ∈ store, ¬ prodKeyMatches date shift part_id area r) →
      update_production_actual store date shift part_id area actual plan
        = ("not found", store))
    ∧ ((∃ r ∈ store, prodKeyMatches date shift part_id area r) →
      (update_production_actual store date shift part_id area actual plan).1 = "updated"
      ∧ (update_production_actual store date shift part_id area actual plan).2 =
          store.map fun r =>
            if prodKeyMatches date shift part_id area r then
              { r with
                actual_qty := actual
                efficiency := if 0 < plan then actual / plan * 100 else 0 }
            else r) := by
  have hfun : (fun r => if prodKeyMask date shift part_id area r then
        { r with actual_qty := actual, efficiency := updEfficiency actual plan }
      else r) =
      (fun r : ProdRow => if prodKeyMatches date shift part_id area r then
        { r with
          actual_qty := actual
          efficiency := if 0 < plan then actual / plan * 100 else 0 }
      else r) := by
    funext r
    by_cases hm : prodKeyMatches date shift part_id area r
    · rw [if_pos ((prodKeyMask_iff date shift part_id area r).mpr hm), if_pos hm]
      rfl
    · rw [if_neg (fun hc => hm ((prodKeyMask_iff date shift part_id area r).mp hc)),
        if_neg hm]
  constructor
  · intro hall
    have hany : store.any (prodKeyMask date shift part_id area) = false := by
      rw [List.any_eq_false]
      intro r hr hc
      exact hall r hr ((prodKeyMask_iff date shift part_id area r).mp hc)
    unfold update_production_actual
    rw [hany]
    simp
  · intro hex
    have hany : store.any (prodKeyMask date shift part_id area) = true := by
      rw [List.any_eq_true]
      obtain ⟨r, hr, hm⟩ := hex
      exact ⟨r, hr, (prodKeyMask_iff date shift part_id area r).mpr hm⟩
    unfold update_production_actual
    rw [hany, if_pos rfl]
    exact ⟨rfl, by rw [hfun]⟩

def exampleProdStore : List ProdRow :=
  [⟨"2026-01-01", "Day", "P1", "CCA", 4, 0, 0⟩,
   ⟨"2026-01-02", "Day", "P1", "CCA", 5, 0, 0⟩]

/-- C9 instantiated: updating a key present in the example store reports
"updated"; updating an absent key reports "not found" and leaves the store
untouched. -/
theorem C9_update_actual_atomic_witness :
    (update_production_actual exampleProdStore "2026-01-01" "Day" "ZZ" "CCA" 2 4
      = ("not found", exampleProdStore))
    ∧ (update_production_actual exampleProdStore "2026-01-01" "Day" "P1" "CCA" 2 4).1
      = "updated" :=
  ⟨(C9_update_actual_atomic exampleProdStore "2026-01-01" "Day" "ZZ" "CCA" 2 4).1
      (by decide),
   ((C9_update_actual_atomic exampleProdStore "2026-01-01" "Day" "P1" "CCA" 2 4).2
      (by decide)).1⟩

/-- `MAX_EMPLOYEES = 23` of `src/app.py`. -/
def MAX_EMPLOYEES : ℕ := 23

/-- The `present_count` of `mark_attendance`: the number of truthy `present`
entries of the request body. -/
def presentCount (entries : List (String × Bool)) : ℕ :=
  (entries.filter fun p => p.2).length

/-- Python `round(x)` (no digits): round half to even. -/
def pyRoundHalfEven (x : ℚ) : ℤ :=
  if x - ⌊x⌋ < 1/2 then ⌊x⌋
  else if 1/2 < x - ⌊x⌋ then ⌊x⌋ + 1
  else if ⌊x⌋ % 2 = 0 then ⌊x⌋ else ⌊x⌋ + 1

/-- Python `round(x, 1)`: round to one decimal, half to even. -/
def pyRound1 (x : ℚ) : ℚ := (pyRoundHalfEven (x * 10) : ℚ) / 10

/-- The response triple of `mark_attendance` in `src/app.py`:
`capped_count = min(present_count, MAX_EMPLOYEES)`, `total = MAX_EMPLOYEES`,
`attendance_pct = round(capped_count / MAX_EMPLOYEES * 100, 1)`. -/
def markAttendanceResp (entries : List (String × Bool)) : ℕ × ℕ × ℚ :=
  (min (presentCount entries) MAX_EMPLOYEES, MAX_EMPLOYEES,
    pyRound1 (((min (presentCount entries) MAX_EMPLOYEES : ℕ) : ℚ) /
      ((MAX_EMPLOYEES : ℕ) : ℚ) * 100))

/-- The `present_count` of `get_dashboard_data` in `src/app.py`:
`min(att_df[mask & present_mask]['emp_id'].nunique(), MAX_EMPLOYEES)` where
the mask selects the date (and shift when given) and truthy `present`. -/
def dashboardPresentCount (rows : List AttRow) (date : String)
    (shift : Option String) : ℕ :=
  min (((rows.filter fun r =>
      (r.date == date && (match shift with | none => true | some s => r.shift == s))
        && r.present).map AttRow.emp_id).dedup.length) MAX_EMPLOYEES

theorem pyRoundHalfEven_le {y : ℚ} {n : ℤ} (hy : y ≤ (n : ℚ)) :
    pyRoundHalfEven y ≤ n := by
  have hfl : ⌊y⌋ ≤ n := by
    have := Int.floor_le_floor hy
    rwa [Int.floor_intCast] at this
  unfold pyRoundHalfEven
  by_cases h1 : y - ⌊y⌋ < 1/2
  · rw [if_pos h1]
    exact hfl
  · rw [if_neg h1]
    have hlt : ⌊y⌋ < n := by
      rcases lt_or_eq_of_le hfl with h | h
      · exact h
      · exfalso
        apply h1
        have hyfl : y - ⌊y⌋ ≤ 0 := by
          rw [h]
          linarith
        linarith
    by_cases h2 : 1/2 < y - ⌊y⌋
    · rw [if_pos h2]
      omega
    · rw [if_neg h2]
      by_cases h3 : ⌊y⌋ % 2 = 0
      · rw [if_pos h3]
        exact hfl
      · rw [if_neg h3]
        omega

theorem pyRound1_le_100 {x : ℚ} (hx : x ≤ 100) : pyRound1 x ≤ 100 := by
  have h10 : x * 10 ≤ ((1000 : ℤ) : ℚ) := by push_cast; linarith
  have hz : pyRoundHalfEven (x * 10) ≤ 1000 := pyRoundHalfEven_le h10
  unfold pyRound1
  rw [div_le_iff₀ (by norm_num : (0:ℚ) < 10)]
  calc ((pyRoundHalfEven (x * 10) : ℚ)) ≤ ((1000 : ℤ) : ℚ) := by exact_mod_cast hz
    _ = 100 * 10 := by norm_num

/-- C10: `mark_attendance` in `src/app.py` caps the reported present count at
23 (`count = min(truthy present entries, 23)`), always reports total 23, and
reports `attendance_pct = round(count/23*100, 1)`, which never exceeds
100.0; `get_dashboard_data` applies the same cap of 23 to the distinct
present employee count. -/
theorem C10_attendance_capped (entries : List (String × Bool)) (rows : List AttRow)
    (date : String) (shift : Option String) :
    (markAttendanceResp entries).1 = min (presentCount entries) 23
    ∧ (markAttendanceResp entries).2.1 = 23
    ∧ (markAttendanceResp entries).2.2 =
        pyRound1 (((min (presentCount entries) 23 : ℕ) : ℚ) / 23 * 100)
    ∧ (markAttendanceResp entries).2.2 ≤ 100
    ∧ dashboardPresentCount rows date shift =
        min (((rows.filter fun r =>
          (r.date == date && (match shift with | none => true | some s => r.shift == s))
            && r.present).map AttRow.emp_id).dedup.length) 23
    ∧ dashboardPresentCount rows date shift ≤ 23 := by
  refine ⟨rfl, rfl, rfl, ?_, rfl, min_le_right _ _⟩
  apply pyRound1_le_100
  have hc : ((min (presentCount entries) MAX_EMPLOYEES : ℕ) : ℚ) ≤
      ((MAX_EMPLOYEES : ℕ) : ℚ) :=
    Nat.cast_le.mpr (min_le_right _ _)
  have hdiv : ((min (presentCount entries) MAX_EMPLOYEES : ℕ) : ℚ) /
      ((MAX_EMPLOYEES : ℕ) : ℚ) ≤ 1 := by
    rw [div_le_one (by norm_num [MAX_EMPLOYEES] : (0:ℚ) < ((MAX_EMPLOYEES : ℕ) : ℚ))]
    exact hc
  have h100 : ((min (presentCount entries) MAX_EMPLOYEES : ℕ) : ℚ) /
      ((MAX_EMPLOYEES : ℕ) : ℚ) * 100 ≤ 1 * 100 :=
    mul_le_mul_of_nonneg_right hdiv (by norm_num)
  linarith

end Tas
